import Mathlib

/-!
A shallow embedding of the clock-based page buffer manager implemented in
`src/buffer.cpp` (class `BufMgr`), together with proofs about its public
operations.

Embedding conventions:
* Machine integers (`std::uint32_t`, `FrameId`, `PageId`) are modelled as `Nat`;
  the only wrapping arithmetic in the source is `clockHand = (clockHand + 1) % numBufs`,
  which is written with an explicit `%`.
* A `File *` is identified by a `Nat`; a possibly-NULL file pointer is `Option Nat`
  (`none` = NULL).  File identity is the hash key, per spec §6.
* Exceptions are modelled by an explicit result type; C++ mutations performed
  before a throw persist, so every operation returns the (possibly partially
  mutated) state alongside its result.
* The unbounded `while (true)` loop of `BufMgr::allocBuf` is embedded with
  explicit fuel; `2 * numBufs + 2` iterations always suffice (each iteration
  of the source loop either terminates the call, increments the pinned
  counter — which is capped at `numBufs` — or irreversibly clears one
  reference bit), and running out of fuel is reported as a distinct outcome,
  never as one of the program's errors.
* External collaborators that are part of the repository but not under `src/`
  are modelled from the spec and marked as such: the frame descriptor
  `BufDesc` with `Set`/`Clear` (spec §3, §4.1), and the hash index
  `BufHashTbl` with `lookup`/`insert`/`remove` (spec §4.2).
* Observable file I/O (writePage / readPage / allocatePage / deletePage) is
  recorded in an event trace returned by each operation, and writebacks may
  be made to fail through a `wOk` oracle so that I/O-error propagation can be
  stated (spec §7).
-/

namespace Badger

/-- Modelled from the spec (§3, §6): a pool page is a fixed-size byte block
tagged with its on-disk page number; its contents are abstracted to one `Nat`. -/
structure Page where
  page_number : Nat
  data : Nat
deriving DecidableEq

/-- Modelled from the spec (§3): the per-frame metadata `BufDesc` (declared in
`buffer.h`, which is not under `src/`): occupancy flag, pin count,
dirty/reference bits and the owning (file, pageNo). -/
structure BufDesc where
  frameNo : Nat
  file : Option Nat
  pageNo : Nat
  valid : Bool
  pinCnt : Nat
  dirty : Bool
  refbit : Bool
deriving DecidableEq

/-- Modelled from the spec (§4.1): `BufDesc::Clear()` sets `valid = false`,
`pinCnt = 0`, `dirty = false`, `refbit = false` and forgets (file, pageNo). -/
def BufDesc.Clear (b : BufDesc) : BufDesc :=
  { b with file := none, pageNo := 0, valid := false, pinCnt := 0,
           dirty := false, refbit := false }

/-- Modelled from the spec (§4.1): `BufDesc::Set(file, pageNo)` assigns the
owner and sets `valid = true`, `pinCnt = 1`, `dirty = false`, `refbit = false`. -/
def BufDesc.Set (b : BufDesc) (file pageNo : Nat) : BufDesc :=
  { b with file := some file, pageNo := pageNo, valid := true, pinCnt := 1,
           dirty := false, refbit := false }

/-- The state of frame `i` as produced by the `BufMgr` constructor
(`buffer.cpp` lines 23-26 plus the modelled `BufDesc` default constructor,
spec §3 invariant 2: an invalid frame has `pinCnt = 0`, `dirty = false`,
`refbit = false` and no owner). -/
def BufDesc.mkInit (i : Nat) : BufDesc :=
  { frameNo := i, file := none, pageNo := 0, valid := false, pinCnt := 0,
    dirty := false, refbit := false }

/-- Modelled from the spec (§4.2): the hash index is an associative container
mapping (file identity, pageNo) to a frame index; keys are unique. -/
abbrev HashTbl := List ((Option Nat × Nat) × Nat)

/-- Modelled from the spec (§4.2): `BufHashTbl::lookup` — `none` is the
NotFound outcome that the source observes as a `HashNotFoundException`. -/
def hashLookup : HashTbl → Option Nat → Nat → Option Nat
  | [], _, _ => none
  | e :: t, f, p => if e.1 = (f, p) then some e.2 else hashLookup t f p

/-- All entries for the given key, removed. -/
def hashErase : HashTbl → Option Nat → Nat → HashTbl
  | [], _, _ => []
  | e :: t, f, p => if e.1 = (f, p) then hashErase t f p else e :: hashErase t f p

/-- Modelled from the spec (§4.2): `BufHashTbl::remove` — fails with NotFound
(`none`) when the key is absent. -/
def hashRemove (h : HashTbl) (f : Option Nat) (p : Nat) : Option HashTbl :=
  match hashLookup h f p with
  | none => none
  | some _ => some (hashErase h f p)

/-- Modelled from the spec (§4.2): `BufHashTbl::insert` (precondition: key
absent; the source always inserts a key it just failed to look up or removed). -/
def hashInsert (h : HashTbl) (f : Option Nat) (p : Nat) (frameNo : Nat) : HashTbl :=
  ((f, p), frameNo) :: h

/-- The buffer manager state: `numBufs`, the frame descriptor table, the page
pool, the hash index and the clock hand (`buffer.cpp` lines 19-34). -/
structure BufMgr where
  numBufs : Nat
  bufDescTable : List BufDesc
  bufPool : List Page
  hashTable : HashTbl
  clockHand : Nat
deriving DecidableEq

/-- `bufDescTable[i]`; out-of-range access (undefined behaviour in C++) is
totalized to the initial descriptor for index `i`. -/
def getDesc (s : BufMgr) (i : Nat) : BufDesc :=
  s.bufDescTable.getD i (BufDesc.mkInit i)

/-- `bufDescTable[i] = d` (no-op when out of range). -/
def setDesc (s : BufMgr) (i : Nat) (d : BufDesc) : BufMgr :=
  { s with bufDescTable := s.bufDescTable.set i d }

/-- `bufPool[i]`; out-of-range access is totalized to a zero page. -/
def getPage (s : BufMgr) (i : Nat) : Page :=
  s.bufPool.getD i ⟨0, 0⟩

/-- `bufPool[i] = pg` (no-op when out of range). -/
def setPage (s : BufMgr) (i : Nat) (pg : Page) : BufMgr :=
  { s with bufPool := s.bufPool.set i pg }

/-- `BufMgr::BufMgr(bufs)` (`buffer.cpp` lines 19-34): every frame gets its
index and `valid = false`, the hash table starts empty, and
`clockHand = bufs - 1` (truncated subtraction; the source requires `bufs ≥ 1`). -/
def initMgr (bufs : Nat) : BufMgr :=
  { numBufs := bufs
    bufDescTable := (List.range bufs).map BufDesc.mkInit
    bufPool := List.replicate bufs ⟨0, 0⟩
    hashTable := []
    clockHand := bufs - 1 }

/-- `BufMgr::advanceClock()` (`buffer.cpp` lines 39-41). -/
def advanceClock (s : BufMgr) : BufMgr :=
  { s with clockHand := (s.clockHand + 1) % s.numBufs }

/-- The error taxonomy of spec §7; constructors carry the data the
corresponding C++ exceptions carry (the filename is modelled by the file id). -/
inductive BufErr where
  | bufferExceeded
  | pageNotPinned (file pageNo frameNo : Nat)
  | pagePinned (file pageNo frameNo : Nat)
  | badBuffer (frameNo : Nat) (dirty valid refbit : Bool)
  | hashNotFound
  | ioError (file pageNo : Nat)
deriving DecidableEq

/-- Observable file I/O events (spec §6), in program order. -/
inductive IOEv where
  | writeEv (file pageNo : Nat)
  | readEv (file pageNo : Nat)
  | allocEv (file : Nat)
  | deleteEv (file pageNo : Nat)
deriving DecidableEq

/-- Result of an operation: normal return, thrown exception, or fuel
exhaustion of the embedded loop (never an outcome of the C++ program). -/
inductive OpRes (α : Type) where
  | ok (a : α)
  | err (e : BufErr)
  | fuelOut
deriving DecidableEq

/-- An operation's outcome: final state (partial mutations persist on a
throw), result, and the file I/O events it performed. -/
structure Out (α : Type) where
  st : BufMgr
  res : OpRes α
  evs : List IOEv
deriving DecidableEq

/-- The fall-through tail of the `allocBuf` loop body (`buffer.cpp` lines
62-63): `bufferDesc.refbit = false; advanceClock();` — note the source runs
this after the pinned branch and after the refbit-second-chance branch alike. -/
def sweepStep (s : BufMgr) : BufMgr :=
  advanceClock (setDesc s s.clockHand { getDesc s s.clockHand with refbit := false })

/-- The `while (true)` loop of `BufMgr::allocBuf` (`buffer.cpp` lines 44-64),
with explicit fuel and the running `pinnedCnt`.  `wOk file pageNo` tells
whether a `writePage` of that page succeeds; on failure the exception
propagates at once (spec §7).  Note the source checks `pinCnt` and `refbit`
only — it never tests `valid` — and its victim branch removes
`(bufferDesc.file, bufferDesc.pageNo)` from the hash index before `Clear()`. -/
def allocBufGo (wOk : Nat → Nat → Bool) :
    Nat → BufMgr → Nat → List IOEv → Out Nat
  | 0, s, _, evs => ⟨s, .fuelOut, evs⟩
  | fuel + 1, s, pinnedCnt, evs =>
    let d := getDesc s s.clockHand
    if 0 < d.pinCnt then
      if pinnedCnt + 1 = s.numBufs then
        ⟨s, .err .bufferExceeded, evs⟩
      else
        allocBufGo wOk fuel (sweepStep s) (pinnedCnt + 1) evs
    else if d.refbit = false then
      if d.dirty && !(wOk (d.file.getD 0) (getPage s s.clockHand).page_number) then
        ⟨s, .err (.ioError (d.file.getD 0) (getPage s s.clockHand).page_number), evs⟩
      else
        let evs1 := if d.dirty
          then evs ++ [IOEv.writeEv (d.file.getD 0) (getPage s s.clockHand).page_number]
          else evs
        match hashRemove s.hashTable d.file d.pageNo with
        | none => ⟨s, .err .hashNotFound, evs1⟩
        | some h1 =>
          ⟨setDesc { s with hashTable := h1 } s.clockHand d.Clear, .ok d.frameNo, evs1⟩
    else
      allocBufGo wOk fuel (sweepStep s) pinnedCnt evs

/-- `BufMgr::allocBuf` (`buffer.cpp` lines 43-65): run the clock sweep with a
fresh `pinnedCnt = 0` (reset per invocation, spec §4.3). -/
def allocBuf (wOk : Nat → Nat → Bool) (s : BufMgr) : Out Nat :=
  allocBufGo wOk (2 * s.numBufs + 2) s 0 []

/-- `BufMgr::readPage` (`buffer.cpp` lines 67-83).  `fr file pageNo` models
`file->readPage(pageNo)`.  The returned handle `&bufPool[frameId]` is modelled
by the frame index. -/
def readPage (wOk : Nat → Nat → Bool) (fr : Nat → Nat → Page)
    (s : BufMgr) (file pageNo : Nat) : Out Nat :=
  match hashLookup s.hashTable (some file) pageNo with
  | some frameId =>
    ⟨setDesc s frameId
       { getDesc s frameId with refbit := true, pinCnt := (getDesc s frameId).pinCnt + 1 },
     .ok frameId, []⟩
  | none =>
    match allocBuf wOk s with
    | ⟨s1, .ok frameId, evs⟩ =>
      let s2 := setPage s1 frameId (fr file pageNo)
      let s3 := { s2 with hashTable := hashInsert s2.hashTable (some file) pageNo frameId }
      let s4 := setDesc s3 frameId ((getDesc s3 frameId).Set file pageNo)
      ⟨s4, .ok frameId, evs ++ [IOEv.readEv file pageNo]⟩
    | ⟨s1, .err e, evs⟩ => ⟨s1, .err e, evs⟩
    | ⟨s1, .fuelOut, evs⟩ => ⟨s1, .fuelOut, evs⟩

/-- `BufMgr::unPinPage` (`buffer.cpp` lines 85-101): silent return on a hash
miss; `PageNotPinnedException` when `pinCnt == 0` (thrown before the dirty
flag is touched); otherwise decrement `pinCnt` and, if the `dirty` argument
is set, set the frame's dirty bit. -/
def unPinPage (s : BufMgr) (file pageNo : Nat) (dirty : Bool) : Out Unit :=
  match hashLookup s.hashTable (some file) pageNo with
  | none => ⟨s, .ok (), []⟩
  | some frameId =>
    if 0 < (getDesc s frameId).pinCnt then
      let s1 := setDesc s frameId
        { getDesc s frameId with pinCnt := (getDesc s frameId).pinCnt - 1 }
      let s2 := if dirty
        then setDesc s1 frameId { getDesc s1 frameId with dirty := true }
        else s1
      ⟨s2, .ok (), []⟩
    else
      ⟨s, .err (.pageNotPinned file pageNo frameId), []⟩

/-- The `for` loop of `BufMgr::flushFile` (`buffer.cpp` lines 104-120),
iterating frame index `i` upward with explicit fuel (`flushFile` supplies
exactly `numBufs`, which the body preserves).  In the body of the writeback
case: the source assigns `dirty = false` after a successful `writePage`, then
calls `remove` and `Clear()`.  Assigning `dirty = false` does not touch the
hash table, and on the success path `Clear()` overwrites the whole descriptor
(leaving only `frameNo`), so the net frame update of a successful iteration
is a single `Clear` of the original descriptor; only the `remove`-failure
outcome keeps the intermediate descriptor with just the dirty bit cleared. -/
def flushFileGo (wOk : Nat → Nat → Bool) (file : Nat) :
    Nat → Nat → BufMgr → List IOEv → Out Unit
  | 0, _, s, evs => ⟨s, .ok (), evs⟩
  | fuel + 1, i, s, evs =>
    if i < s.numBufs then
      if (getDesc s i).file = some file then
        if 0 < (getDesc s i).pinCnt then
          ⟨s, .err (.pagePinned file (getDesc s i).pageNo (getDesc s i).frameNo), evs⟩
        else if (getDesc s i).valid = false then
          ⟨s, .err (.badBuffer (getDesc s i).frameNo (getDesc s i).dirty
                      (getDesc s i).valid (getDesc s i).refbit), evs⟩
        else if (getDesc s i).dirty && !(wOk file (getPage s i).page_number) then
          ⟨s, .err (.ioError file (getPage s i).page_number), evs⟩
        else
          match hashRemove s.hashTable (some file) (getDesc s i).pageNo with
          | none =>
            ⟨(if (getDesc s i).dirty
               then setDesc s i { getDesc s i with dirty := false } else s),
             .err .hashNotFound,
             (if (getDesc s i).dirty
               then evs ++ [IOEv.writeEv file (getPage s i).page_number] else evs)⟩
          | some h1 =>
            flushFileGo wOk file fuel (i + 1)
              (setDesc { s with hashTable := h1 } i ((getDesc s i).Clear))
              (if (getDesc s i).dirty
                then evs ++ [IOEv.writeEv file (getPage s i).page_number] else evs)
      else
        flushFileGo wOk file fuel (i + 1) s evs
    else
      ⟨s, .ok (), evs⟩

/-- `BufMgr::flushFile` (`buffer.cpp` lines 103-121). -/
def flushFile (wOk : Nat → Nat → Bool) (s : BufMgr) (file : Nat) : Out Unit :=
  flushFileGo wOk file s.numBufs 0 s []

/-- `BufMgr::allocPage` (`buffer.cpp` lines 123-131).  The file's
`allocatePage()` is modelled by a per-file next-page counter `fileNext`
(spec §6: it reserves a fresh page number and returns a zero page carrying
it); the new counter value is returned first.  Note the source's final line is
`bufDescTable->Set(file, pageNo)` — pointer arithmetic on the table base, i.e.
`Set` on frame 0, not on the frame returned by `allocBuf`. -/
def allocPage (wOk : Nat → Nat → Bool) (s : BufMgr) (file : Nat) (fileNext : Nat) :
    Nat × Out (Nat × Nat) :=
  let pageNo := fileNext
  match allocBuf wOk s with
  | ⟨s1, .ok frameId, evs⟩ =>
    let s2 := { s1 with hashTable := hashInsert s1.hashTable (some file) pageNo frameId }
    let s3 := setDesc s2 0 ((getDesc s2 0).Set file pageNo)
    (fileNext + 1, ⟨s3, .ok (pageNo, frameId), IOEv.allocEv file :: evs⟩)
  | ⟨s1, .err e, evs⟩ => (fileNext + 1, ⟨s1, .err e, IOEv.allocEv file :: evs⟩)
  | ⟨s1, .fuelOut, evs⟩ => (fileNext + 1, ⟨s1, .fuelOut, IOEv.allocEv file :: evs⟩)

/-- `BufMgr::disposePage` (`buffer.cpp` lines 133-146): a hash miss returns
silently (in particular `file->deletePage` is NOT called); when the mapped
frame is valid the hash entry is removed, the frame Cleared, and the on-disk
page deleted; an invalid mapped frame is silently ignored. -/
def disposePage (s : BufMgr) (file pageNo : Nat) : Out Unit :=
  match hashLookup s.hashTable (some file) pageNo with
  | none => ⟨s, .ok (), []⟩
  | some frameId =>
    if (getDesc s frameId).valid then
      match hashRemove s.hashTable (some file) pageNo with
      | none => ⟨s, .err .hashNotFound, []⟩
      | some h1 =>
        ⟨setDesc { s with hashTable := h1 } frameId ((getDesc s frameId).Clear),
         .ok (), [IOEv.deleteEv file pageNo]⟩
    else
      ⟨s, .ok (), []⟩

/-- A public-API call with its arguments (spec §4.4), for quantifying over
operation sequences. -/
inductive Op where
  | read (file pageNo : Nat)
  | unPin (file pageNo : Nat) (dirty : Bool)
  | alloc (file : Nat)
  | dispose (file pageNo : Nat)
  | flush (file : Nat)
deriving DecidableEq

/-- Run one public operation on the manager state paired with the per-file
next-page counters (the only external state `allocPage` mutates). -/
def runOp (wOk : Nat → Nat → Bool) (fr : Nat → Nat → Page)
    (st : BufMgr × (Nat → Nat)) (op : Op) : BufMgr × (Nat → Nat) :=
  match op with
  | .read f p => ((readPage wOk fr st.1 f p).st, st.2)
  | .unPin f p d => ((unPinPage st.1 f p d).st, st.2)
  | .alloc f =>
    let r := allocPage wOk st.1 f (st.2 f)
    (r.2.st, fun g => if g = f then r.1 else st.2 g)
  | .dispose f p => ((disposePage st.1 f p).st, st.2)
  | .flush f => ((flushFile wOk st.1 f).st, st.2)

/-- Run a sequence of public operations. -/
def runOps (wOk : Nat → Nat → Bool) (fr : Nat → Nat → Page)
    (st : BufMgr × (Nat → Nat)) (ops : List Op) : BufMgr × (Nat → Nat) :=
  ops.foldl (runOp wOk fr) st

/-- Spec §3 invariant 1 / §8 P1: every valid frame's (file, pageNo) is mapped
by the hash index to that frame's index, and every hash entry points to a
valid frame whose (file, pageNo) matches the key. -/
def hashFrameBijection (s : BufMgr) : Prop :=
  (∀ i, i < s.numBufs → (getDesc s i).valid = true →
    hashLookup s.hashTable (getDesc s i).file (getDesc s i).pageNo = some i) ∧
  (∀ k p fid, hashLookup s.hashTable k p = some fid →
    (getDesc s fid).valid = true ∧ (getDesc s fid).file = k ∧ (getDesc s fid).pageNo = p)

/-- Agreement of two descriptors on every field except `refbit` (the only
field the clock sweep mutates on frames it passes over). -/
def descAgrees (a b : BufDesc) : Prop :=
  b.frameNo = a.frameNo ∧ b.file = a.file ∧ b.pageNo = a.pageNo ∧
  b.valid = a.valid ∧ b.pinCnt = a.pinCnt ∧ b.dirty = a.dirty

/-- The writebacks `flushFile` performs for `file`, starting at frame `i` with
`fuel` frames to go: one `writePage` per dirty frame of the file, in ascending
frame order. -/
def flushWrites (s : BufMgr) (file : Nat) : Nat → Nat → List IOEv
  | _, 0 => []
  | i, fuel + 1 =>
    (if (getDesc s i).file = some file ∧ (getDesc s i).dirty = true
      then [IOEv.writeEv file (getPage s i).page_number] else [])
      ++ flushWrites s file (i + 1) fuel

/-- A write oracle under which every `writePage` succeeds. -/
def wT : Nat → Nat → Bool := fun _ _ => true

/-- A write oracle under which every `writePage` fails. -/
def wF : Nat → Nat → Bool := fun _ _ => false

/-- A disk-read oracle returning a zero page carrying the requested number. -/
def frZ : Nat → Nat → Page := fun _ p => ⟨p, 0⟩

/-- A 2-frame pool: frame 0 pinned on (file 7, page 1), frame 1 an unpinned
clean bound frame on (file 7, page 2), hand at frame 1.  `allocBuf` evicts
frame 1 and returns it. -/
def mgrA : BufMgr :=
  { numBufs := 2
    bufDescTable := [⟨0, some 7, 1, true, 1, false, false⟩, ⟨1, some 7, 2, true, 0, false, false⟩]
    bufPool := [⟨1, 0⟩, ⟨2, 0⟩]
    hashTable := [((some 7, 1), 0), ((some 7, 2), 1)]
    clockHand := 1 }

/-- A 2-frame pool with frame 0 pinned and frame 1 unpinned but carrying a
set reference bit; hand at frame 0.  The sweep visits frame 0 twice. -/
def mgrB : BufMgr :=
  { numBufs := 2
    bufDescTable := [⟨0, some 1, 1, true, 1, false, false⟩, ⟨1, some 1, 2, true, 0, false, true⟩]
    bufPool := [⟨1, 0⟩, ⟨2, 0⟩]
    hashTable := [((some 1, 1), 0), ((some 1, 2), 1)]
    clockHand := 0 }

/-- A 2-frame pool with frame 0 pinned and carrying a set reference bit,
frame 1 an unpinned clean victim; hand at frame 0. -/
def mgrC : BufMgr :=
  { numBufs := 2
    bufDescTable := [⟨0, some 1, 1, true, 1, false, true⟩, ⟨1, some 1, 2, true, 0, false, false⟩]
    bufPool := [⟨1, 0⟩, ⟨2, 0⟩]
    hashTable := [((some 1, 1), 0), ((some 1, 2), 1)]
    clockHand := 0 }

/-- A 2-frame pool holding pages 10 (dirty) and 11 (clean) of file 1, both
unpinned. -/
def mgrD : BufMgr :=
  { numBufs := 2
    bufDescTable := [⟨0, some 1, 10, true, 0, true, false⟩, ⟨1, some 1, 11, true, 0, false, false⟩]
    bufPool := [⟨10, 5⟩, ⟨11, 6⟩]
    hashTable := [((some 1, 10), 0), ((some 1, 11), 1)]
    clockHand := 1 }

/-- A 1-frame pool whose only frame is a dirty unpinned victim bound to
(file 2, page 5). -/
def mgrE : BufMgr :=
  { numBufs := 1
    bufDescTable := [⟨0, some 2, 5, true, 0, true, false⟩]
    bufPool := [⟨5, 77⟩]
    hashTable := [((some 2, 5), 0)]
    clockHand := 0 }

/-- A 1-frame pool whose only frame is pinned on (file 1, page 1). -/
def mgrF : BufMgr :=
  { numBufs := 1
    bufDescTable := [⟨0, some 1, 1, true, 1, false, false⟩]
    bufPool := [⟨1, 0⟩]
    hashTable := [((some 1, 1), 0)]
    clockHand := 0 }

/-- A 1-frame pool holding (file 1, page 1) with `pinCnt = 2`. -/
def mgrG : BufMgr :=
  { numBufs := 1
    bufDescTable := [⟨0, some 1, 1, true, 2, false, false⟩]
    bufPool := [⟨1, 0⟩]
    hashTable := [((some 1, 1), 0)]
    clockHand := 0 }

/-- A 1-frame pool holding (file 1, page 1) unpinned and dirty. -/
def mgrH : BufMgr :=
  { numBufs := 1
    bufDescTable := [⟨0, some 1, 1, true, 0, true, false⟩]
    bufPool := [⟨1, 0⟩]
    hashTable := [((some 1, 1), 0)]
    clockHand := 0 }

end Badger

namespace Badger

/-! ### General helper lemmas -/

theorem list_getD_set {α : Type} (l : List α) (i j : Nat) (a d : α) :
    (l.set i a).getD j d = if i = j ∧ i < l.length then a else l.getD j d := by
  induction l generalizing i j with
  | nil => simp
  | cons x t ih =>
    cases i with
    | zero =>
      cases j with
      | zero => simp
      | succ j => simp
    | succ i =>
      cases j with
      | zero => simp
      | succ j =>
        simp only [List.set, List.getD_cons_succ, List.length_cons]
        rw [ih]
        by_cases h : i = j ∧ i < t.length
        · rw [if_pos h, if_pos (by omega)]
        · rw [if_neg h, if_neg (by omega)]

theorem getDesc_setDesc (s : BufMgr) (i j : Nat) (d : BufDesc) :
    getDesc (setDesc s i d) j =
      if i = j ∧ i < s.bufDescTable.length then d else getDesc s j := by
  simp only [getDesc, setDesc]
  exact list_getD_set s.bufDescTable i j d (BufDesc.mkInit j)

theorem getDesc_out_of_range (s : BufMgr) (i : Nat) (h : s.bufDescTable.length ≤ i) :
    getDesc s i = BufDesc.mkInit i := by
  simp only [getDesc]
  exact List.getD_eq_default _ _ h

theorem lt_length_of_pin_pos (s : BufMgr) (i : Nat)
    (hp : 0 < (getDesc s i).pinCnt) : i < s.bufDescTable.length := by
  by_contra hnot
  rw [getDesc_out_of_range s i (by omega)] at hp
  simp [BufDesc.mkInit] at hp

theorem lt_length_of_file_some (s : BufMgr) (i f : Nat)
    (hf : (getDesc s i).file = some f) : i < s.bufDescTable.length := by
  by_contra hnot
  rw [getDesc_out_of_range s i (by omega)] at hf
  simp [BufDesc.mkInit] at hf

theorem descAgrees_refl (a : BufDesc) : descAgrees a a :=
  ⟨rfl, rfl, rfl, rfl, rfl, rfl⟩

theorem descAgrees_trans {a b c : BufDesc}
    (h1 : descAgrees a b) (h2 : descAgrees b c) : descAgrees a c := by
  obtain ⟨x1, x2, x3, x4, x5, x6⟩ := h1
  obtain ⟨y1, y2, y3, y4, y5, y6⟩ := h2
  exact ⟨y1.trans x1, y2.trans x2, y3.trans x3, y4.trans x4, y5.trans x5, y6.trans x6⟩

/-! ### Hash table lemmas -/

theorem hashLookup_erase_self (h : HashTbl) (f : Option Nat) (p : Nat) :
    hashLookup (hashErase h f p) f p = none := by
  induction h with
  | nil => rfl
  | cons e t ih =>
    simp only [hashErase]
    by_cases he : e.1 = (f, p)
    · rw [if_pos he]; exact ih
    · rw [if_neg he]; simp only [hashLookup]; rw [if_neg he]; exact ih

theorem hashLookup_erase_ne (h : HashTbl) (f0 f : Option Nat) (p0 p : Nat)
    (hne : ¬(f = f0 ∧ p = p0)) :
    hashLookup (hashErase h f0 p0) f p = hashLookup h f p := by
  have hpair : ((f, p) : Option Nat × Nat) ≠ (f0, p0) := by
    intro hE
    exact hne ⟨congrArg Prod.fst hE, congrArg Prod.snd hE⟩
  induction h with
  | nil => rfl
  | cons e t ih =>
    by_cases he : e.1 = (f0, p0)
    · have hef : e.1 ≠ (f, p) := by
        rw [he]; exact fun hE => hpair hE.symm
      simp only [hashErase, if_pos he]
      rw [ih]
      simp only [hashLookup, if_neg hef]
    · simp only [hashErase, if_neg he, hashLookup]
      by_cases hef : e.1 = (f, p)
      · simp only [if_pos hef]
      · simp only [if_neg hef]; exact ih

theorem hashRemove_of_lookup (h : HashTbl) (f : Option Nat) (p : Nat) (fid : Nat)
    (hl : hashLookup h f p = some fid) :
    hashRemove h f p = some (hashErase h f p) := by
  unfold hashRemove
  rw [hl]

/-! ### State-update helper lemmas -/

theorem setDesc_numBufs (s : BufMgr) (i : Nat) (d : BufDesc) :
    (setDesc s i d).numBufs = s.numBufs := rfl

theorem setDesc_hashTable (s : BufMgr) (i : Nat) (d : BufDesc) :
    (setDesc s i d).hashTable = s.hashTable := rfl

theorem setDesc_length (s : BufMgr) (i : Nat) (d : BufDesc) :
    (setDesc s i d).bufDescTable.length = s.bufDescTable.length := by
  simp [setDesc]

theorem getPage_setDesc (s : BufMgr) (i j : Nat) (d : BufDesc) :
    getPage (setDesc s i d) j = getPage s j := rfl

theorem sweepStep_numBufs (s : BufMgr) : (sweepStep s).numBufs = s.numBufs := rfl

theorem sweepStep_hashTable (s : BufMgr) : (sweepStep s).hashTable = s.hashTable := rfl

theorem sweepStep_clockHand (s : BufMgr) :
    (sweepStep s).clockHand = (s.clockHand + 1) % s.numBufs := rfl

theorem sweepStep_length (s : BufMgr) :
    (sweepStep s).bufDescTable.length = s.bufDescTable.length := by
  simp [sweepStep, advanceClock, setDesc]

theorem getPage_sweepStep (s : BufMgr) (i : Nat) :
    getPage (sweepStep s) i = getPage s i := rfl

theorem getDesc_advanceClock (s : BufMgr) (i : Nat) :
    getDesc (advanceClock s) i = getDesc s i := rfl

theorem getDesc_sweepStep (s : BufMgr) (i : Nat) :
    descAgrees (getDesc s i) (getDesc (sweepStep s) i) := by
  show descAgrees (getDesc s i) (getDesc (setDesc s s.clockHand _) i)
  rw [getDesc_setDesc]
  by_cases h : s.clockHand = i ∧ s.clockHand < s.bufDescTable.length
  · rw [if_pos h]
    obtain ⟨h1, _⟩ := h
    subst h1
    exact ⟨rfl, rfl, rfl, rfl, rfl, rfl⟩
  · rw [if_neg h]
    exact descAgrees_refl _

theorem getDesc_sweepStep_pinCnt (s : BufMgr) (i : Nat) :
    (getDesc (sweepStep s) i).pinCnt = (getDesc s i).pinCnt :=
  (getDesc_sweepStep s i).2.2.2.2.1

/-! ### The clock sweep -/

theorem allocBufGo_allPinned (wOk : Nat → Nat → Bool) (fuel : Nat) :
    ∀ (s : BufMgr) (pc : Nat) (evs : List IOEv),
      (∀ i, i < s.numBufs → 0 < (getDesc s i).pinCnt) →
      s.clockHand < s.numBufs → pc < s.numBufs → s.numBufs ≤ pc + fuel →
      (allocBufGo wOk fuel s pc evs).res = .err .bufferExceeded := by
  induction fuel with
  | zero =>
    intro s pc evs _ _ hpc hle
    omega
  | succ fuel ih =>
    intro s pc evs hp hch hpc hle
    have hd : 0 < (getDesc s s.clockHand).pinCnt := hp _ hch
    by_cases hfull : pc + 1 = s.numBufs
    · simp only [allocBufGo]
      rw [if_pos hd, if_pos hfull]
    · simp only [allocBufGo]
      rw [if_pos hd, if_neg hfull]
      apply ih
      · intro i hi
        rw [sweepStep_numBufs] at hi
        rw [getDesc_sweepStep_pinCnt]
        exact hp i hi
      · rw [sweepStep_clockHand, sweepStep_numBufs]
        exact Nat.mod_lt _ (by omega)
      · rw [sweepStep_numBufs]; omega
      · rw [sweepStep_numBufs]; omega

theorem allocBufGo_err_spec (wOk : Nat → Nat → Bool) (fuel : Nat) :
    ∀ (s : BufMgr) (pc : Nat) (evs : List IOEv) (out : Out Nat) (e : BufErr),
      allocBufGo wOk fuel s pc evs = out → out.res = .err e →
      out.st.hashTable = s.hashTable ∧
      out.st.numBufs = s.numBufs ∧
      (∀ i, descAgrees (getDesc s i) (getDesc out.st i)) ∧
      (e = .bufferExceeded → out.evs = evs) ∧
      (∀ f p, e = .ioError f p →
        out.evs = evs ∧
        (getDesc out.st out.st.clockHand).dirty = true ∧
        (getDesc out.st out.st.clockHand).pinCnt = 0) := by
  induction fuel with
  | zero =>
    intro s pc evs out e hout hres
    simp only [allocBufGo] at hout
    subst hout
    simp [Out.res] at hres
  | succ fuel ih =>
    intro s pc evs out e hout hres
    simp only [allocBufGo] at hout
    by_cases h1 : 0 < (getDesc s s.clockHand).pinCnt
    · rw [if_pos h1] at hout
      by_cases h2 : pc + 1 = s.numBufs
      · rw [if_pos h2] at hout
        subst hout
        simp only [Out.res] at hres
        have he : e = .bufferExceeded := by
          cases hres; rfl
        subst he
        refine ⟨rfl, rfl, fun i => descAgrees_refl _, fun _ => rfl, ?_⟩
        intro f p hE
        cases hE
      · rw [if_neg h2] at hout
        obtain ⟨hh, hn, ha, hb, hio⟩ := ih (sweepStep s) (pc + 1) evs out e hout hres
        exact ⟨hh.trans (sweepStep_hashTable s), hn.trans (sweepStep_numBufs s),
          fun i => descAgrees_trans (getDesc_sweepStep s i) (ha i), hb, hio⟩
    · rw [if_neg h1] at hout
      by_cases h3 : (getDesc s s.clockHand).refbit = false
      · rw [if_pos h3] at hout
        by_cases h4 : ((getDesc s s.clockHand).dirty
            && !(wOk ((getDesc s s.clockHand).file.getD 0)
                  (getPage s s.clockHand).page_number)) = true
        · rw [if_pos h4] at hout
          subst hout
          simp only [Out.res] at hres
          have he : e = .ioError ((getDesc s s.clockHand).file.getD 0)
              (getPage s s.clockHand).page_number := by
            cases hres; rfl
          subst he
          refine ⟨rfl, rfl, fun i => descAgrees_refl _, (by intro hE; cases hE), ?_⟩
          intro f p hE
          have h4' : (getDesc s s.clockHand).dirty = true ∧
              !(wOk ((getDesc s s.clockHand).file.getD 0)
                  (getPage s s.clockHand).page_number) = true := by
            simpa using h4
          exact ⟨rfl, h4'.1, (by omega : (getDesc s s.clockHand).pinCnt = 0)⟩
        · rw [if_neg h4] at hout
          rcases hrem : hashRemove s.hashTable (getDesc s s.clockHand).file
              (getDesc s s.clockHand).pageNo with _ | h5
          · rw [hrem] at hout
            subst hout
            simp only [Out.res] at hres
            have he : e = .hashNotFound := by
              cases hres; rfl
            subst he
            refine ⟨rfl, rfl, fun i => descAgrees_refl _, (by intro hE; cases hE), ?_⟩
            intro f p hE
            cases hE
          · rw [hrem] at hout
            subst hout
            simp [Out.res] at hres
      · rw [if_neg h3] at hout
        obtain ⟨hh, hn, ha, hb, hio⟩ := ih (sweepStep s) pc evs out e hout hres
        exact ⟨hh.trans (sweepStep_hashTable s), hn.trans (sweepStep_numBufs s),
          fun i => descAgrees_trans (getDesc_sweepStep s i) (ha i), hb, hio⟩

/-! ### Evaluation on a freshly constructed manager -/

theorem getDesc_initMgr (bufs i : Nat) : getDesc (initMgr bufs) i = BufDesc.mkInit i := by
  by_cases h : i < bufs
  · have hlen : i < ((List.range bufs).map BufDesc.mkInit).length := by
      simpa using h
    simp only [getDesc, initMgr]
    rw [List.getD_eq_getElem _ _ hlen]
    simp
  · apply getDesc_out_of_range
    simp only [initMgr]
    simp only [List.length_map, List.length_range]
    omega

theorem allocBuf_initMgr (wOk : Nat → Nat → Bool) (bufs : Nat) :
    allocBuf wOk (initMgr bufs) = ⟨initMgr bufs, .err .hashNotFound, []⟩ := by
  show allocBufGo wOk (2 * (initMgr bufs).numBufs + 1 + 1) (initMgr bufs) 0 [] = _
  simp only [allocBufGo, getDesc_initMgr, BufDesc.mkInit]
  simp [hashRemove, hashLookup, initMgr]

/-! ### The flush loop -/

theorem hashRemove_some_eq (h : HashTbl) (f : Option Nat) (p : Nat) (h1 : HashTbl)
    (hr : hashRemove h f p = some h1) : h1 = hashErase h f p := by
  unfold hashRemove at hr
  rcases hl : hashLookup h f p with _ | fid
  · rw [hl] at hr; cases hr
  · rw [hl] at hr; cases hr; rfl

theorem flushFileGo_noop (wOk : Nat → Nat → Bool) (file : Nat) (fuel : Nat) :
    ∀ (i : Nat) (s : BufMgr) (evs : List IOEv),
      (∀ j, j < s.numBufs → (getDesc s j).file ≠ some file) →
      flushFileGo wOk file fuel i s evs = ⟨s, .ok (), evs⟩ := by
  induction fuel with
  | zero => intro i s evs _; rfl
  | succ fuel ih =>
    intro i s evs hnf
    simp only [flushFileGo]
    by_cases hi : i < s.numBufs
    · rw [if_pos hi, if_neg (hnf i hi)]
      exact ih (i + 1) s evs hnf
    · rw [if_neg hi]

theorem flushFileGo_hash_mono (wOk : Nat → Nat → Bool) (file : Nat) (fuel : Nat) :
    ∀ (i : Nat) (s : BufMgr) (evs : List IOEv) (k : Option Nat) (p : Nat),
      hashLookup (flushFileGo wOk file fuel i s evs).st.hashTable k p = none ∨
      hashLookup (flushFileGo wOk file fuel i s evs).st.hashTable k p =
        hashLookup s.hashTable k p := by
  induction fuel with
  | zero => intro i s evs k p; right; rfl
  | succ fuel ih =>
    intro i s evs k p
    by_cases hi : i < s.numBufs
    · by_cases hf : (getDesc s i).file = some file
      · by_cases hp : 0 < (getDesc s i).pinCnt
        · right
          have hstep : flushFileGo wOk file (fuel + 1) i s evs =
              ⟨s, .err (.pagePinned file (getDesc s i).pageNo (getDesc s i).frameNo), evs⟩ := by
            simp only [flushFileGo]
            rw [if_pos hi, if_pos hf, if_pos hp]
          rw [hstep]
        · by_cases hv : (getDesc s i).valid = false
          · right
            have hstep : flushFileGo wOk file (fuel + 1) i s evs =
                ⟨s, .err (.badBuffer (getDesc s i).frameNo (getDesc s i).dirty
                    (getDesc s i).valid (getDesc s i).refbit), evs⟩ := by
              simp only [flushFileGo]
              rw [if_pos hi, if_pos hf, if_neg hp, if_pos hv]
            rw [hstep]
          · by_cases hw : ((getDesc s i).dirty
                && !(wOk file (getPage s i).page_number)) = true
            · right
              have hstep : flushFileGo wOk file (fuel + 1) i s evs =
                  ⟨s, .err (.ioError file (getPage s i).page_number), evs⟩ := by
                simp only [flushFileGo]
                rw [if_pos hi, if_pos hf, if_neg hp, if_neg hv, if_pos hw]
              rw [hstep]
            · rcases hrem : hashRemove s.hashTable (some file) (getDesc s i).pageNo
                  with _ | h1
              · right
                have hstep : flushFileGo wOk file (fuel + 1) i s evs =
                    ⟨(if (getDesc s i).dirty
                       then setDesc s i { getDesc s i with dirty := false } else s),
                     .err .hashNotFound,
                     (if (getDesc s i).dirty
                       then evs ++ [IOEv.writeEv file (getPage s i).page_number]
                       else evs)⟩ := by
                  simp only [flushFileGo]
                  rw [if_pos hi, if_pos hf, if_neg hp, if_neg hv, if_neg hw, hrem]
                rw [hstep]
                by_cases hd : (getDesc s i).dirty = true
                · simp only [Out.st, if_pos hd, setDesc_hashTable]
                · simp only [Out.st, if_neg hd]
              · have hstep : flushFileGo wOk file (fuel + 1) i s evs =
                    flushFileGo wOk file fuel (i + 1)
                      (setDesc { s with hashTable := h1 } i ((getDesc s i).Clear))
                      (if (getDesc s i).dirty
                        then evs ++ [IOEv.writeEv file (getPage s i).page_number]
                        else evs) := by
                  simp only [flushFileGo]
                  rw [if_pos hi, if_pos hf, if_neg hp, if_neg hv, if_neg hw, hrem]
                rw [hstep]
                have he1 : h1 = hashErase s.hashTable (some file) (getDesc s i).pageNo :=
                  hashRemove_some_eq _ _ _ _ hrem
                rcases ih (i + 1) (setDesc { s with hashTable := h1 } i ((getDesc s i).Clear))
                    (if (getDesc s i).dirty
                      then evs ++ [IOEv.writeEv file (getPage s i).page_number]
                      else evs) k p with h | h
                · left; exact h
                · rw [setDesc_hashTable] at h
                  by_cases hk : k = some file ∧ p = (getDesc s i).pageNo
                  · left
                    rw [h, he1]
                    obtain ⟨hk1, hk2⟩ := hk
                    subst hk1; subst hk2
                    exact hashLookup_erase_self _ _ _
                  · right
                    rw [h, he1]
                    exact hashLookup_erase_ne _ _ _ _ _ hk
      · have hstep : flushFileGo wOk file (fuel + 1) i s evs =
            flushFileGo wOk file fuel (i + 1) s evs := by
          simp only [flushFileGo]
          rw [if_pos hi, if_neg hf]
        rw [hstep]
        exact ih (i + 1) s evs k p
    · right
      have hstep : flushFileGo wOk file (fuel + 1) i s evs = ⟨s, .ok (), evs⟩ := by
        simp only [flushFileGo]
        rw [if_neg hi]
      rw [hstep]

theorem flushWrites_congr (s s2 : BufMgr) (file : Nat) (fuel : Nat) :
    ∀ i, (∀ j, i ≤ j → getDesc s2 j = getDesc s j ∧ getPage s2 j = getPage s j) →
      flushWrites s2 file i fuel = flushWrites s file i fuel := by
  induction fuel with
  | zero => intro i _; rfl
  | succ fuel ih =>
    intro i hag
    simp only [flushWrites]
    rw [(hag i (Nat.le_refl i)).1, (hag i (Nat.le_refl i)).2]
    rw [ih (i + 1) (fun j hj => hag j (by omega))]

/-! ### No public operation changes a freshly constructed manager

Because `allocBuf` never tests `valid`, the victim branch applies to the
invalid frames of a fresh pool and its `remove` call fails at once, so no
binding can ever be created: every public operation leaves a fresh manager's
state exactly as constructed. -/

theorem flushFile_initMgr (wOk : Nat → Nat → Bool) (bufs f : Nat) :
    flushFile wOk (initMgr bufs) f = ⟨initMgr bufs, .ok (), []⟩ := by
  apply flushFileGo_noop
  intro j _
  rw [getDesc_initMgr]
  simp [BufDesc.mkInit]

theorem readPage_initMgr (wOk : Nat → Nat → Bool) (fr : Nat → Nat → Page)
    (bufs f p : Nat) :
    readPage wOk fr (initMgr bufs) f p = ⟨initMgr bufs, .err .hashNotFound, []⟩ := by
  unfold readPage
  rw [allocBuf_initMgr]
  rfl

theorem unPinPage_initMgr (bufs f p : Nat) (d : Bool) :
    unPinPage (initMgr bufs) f p d = ⟨initMgr bufs, .ok (), []⟩ := rfl

theorem disposePage_initMgr (bufs f p : Nat) :
    disposePage (initMgr bufs) f p = ⟨initMgr bufs, .ok (), []⟩ := rfl

theorem allocPage_initMgr (wOk : Nat → Nat → Bool) (bufs f fn : Nat) :
    allocPage wOk (initMgr bufs) f fn =
      (fn + 1, ⟨initMgr bufs, .err .hashNotFound, [IOEv.allocEv f]⟩) := by
  unfold allocPage
  rw [allocBuf_initMgr]

theorem runOp_initMgr (wOk : Nat → Nat → Bool) (fr : Nat → Nat → Page)
    (bufs : Nat) (fn : Nat → Nat) (op : Op) :
    (runOp wOk fr (initMgr bufs, fn) op).1 = initMgr bufs := by
  cases op with
  | read f p =>
    show (readPage wOk fr (initMgr bufs) f p).st = initMgr bufs
    rw [readPage_initMgr]
  | unPin f p d =>
    show (unPinPage (initMgr bufs) f p d).st = initMgr bufs
    rw [unPinPage_initMgr]
  | alloc f =>
    show (allocPage wOk (initMgr bufs) f (fn f)).2.st = initMgr bufs
    rw [allocPage_initMgr]
  | dispose f p =>
    show (disposePage (initMgr bufs) f p).st = initMgr bufs
    rw [disposePage_initMgr]
  | flush f =>
    show (flushFile wOk (initMgr bufs) f).st = initMgr bufs
    rw [flushFile_initMgr]

theorem runOps_initMgr (wOk : Nat → Nat → Bool) (fr : Nat → Nat → Page)
    (bufs : Nat) :
    ∀ (ops : List Op) (fn : Nat → Nat),
      (runOps wOk fr (initMgr bufs, fn) ops).1 = initMgr bufs := by
  intro ops
  induction ops with
  | nil => intro fn; rfl
  | cons op rest ih =>
    intro fn
    show (runOps wOk fr (runOp wOk fr (initMgr bufs, fn) op) rest).1 = initMgr bufs
    have h1 := runOp_initMgr wOk fr bufs fn op
    rcases hre : runOp wOk fr (initMgr bufs, fn) op with ⟨m, g⟩
    rw [hre] at h1
    have hm : m = initMgr bufs := h1
    rw [hm]
    exact ih g

theorem flushFileGo_ok_spec (wOk : Nat → Nat → Bool) (file : Nat) (fuel : Nat) :
    ∀ (i : Nat) (s : BufMgr) (evs : List IOEv) (out : Out Unit),
      flushFileGo wOk file fuel i s evs = out →
      i + fuel = s.numBufs →
      out.res = .ok () →
      out.evs = evs ++ flushWrites s file i fuel ∧
      out.st.numBufs = s.numBufs ∧
      (∀ j, j < i → getDesc out.st j = getDesc s j) ∧
      (∀ j, i ≤ j → getDesc out.st j =
        (if (getDesc s j).file = some file ∧ j < s.numBufs
          then (getDesc s j).Clear else getDesc s j)) ∧
      (∀ j, i ≤ j → j < s.numBufs → (getDesc s j).file = some file →
        hashLookup out.st.hashTable (some file) ((getDesc s j).pageNo) = none) := by
  induction fuel with
  | zero =>
    intro i s evs out hout hfuel hres
    simp only [flushFileGo] at hout
    subst hout
    refine ⟨by simp [flushWrites], rfl, fun j _ => rfl, ?_, ?_⟩
    · intro j hj
      rw [if_neg (fun hc => absurd hc.2 (by omega))]
    · intro j hj hjn _
      exact absurd hjn (by omega)
  | succ fuel ih =>
    intro i s evs out hout hfuel hres
    have hi : i < s.numBufs := by omega
    by_cases hf : (getDesc s i).file = some file
    · have hp : ¬0 < (getDesc s i).pinCnt := by
        intro hp
        have hstep : flushFileGo wOk file (fuel + 1) i s evs =
            ⟨s, .err (.pagePinned file (getDesc s i).pageNo (getDesc s i).frameNo), evs⟩ := by
          simp only [flushFileGo]
          rw [if_pos hi, if_pos hf, if_pos hp]
        rw [hstep] at hout
        subst hout
        simp [Out.res] at hres
      have hv : ¬(getDesc s i).valid = false := by
        intro hv
        have hstep : flushFileGo wOk file (fuel + 1) i s evs =
            ⟨s, .err (.badBuffer (getDesc s i).frameNo (getDesc s i).dirty
                (getDesc s i).valid (getDesc s i).refbit), evs⟩ := by
          simp only [flushFileGo]
          rw [if_pos hi, if_pos hf, if_neg hp, if_pos hv]
        rw [hstep] at hout
        subst hout
        simp [Out.res] at hres
      have hw : ¬((getDesc s i).dirty && !(wOk file (getPage s i).page_number)) = true := by
        intro hw
        have hstep : flushFileGo wOk file (fuel + 1) i s evs =
            ⟨s, .err (.ioError file (getPage s i).page_number), evs⟩ := by
          simp only [flushFileGo]
          rw [if_pos hi, if_pos hf, if_neg hp, if_neg hv, if_pos hw]
        rw [hstep] at hout
        subst hout
        simp [Out.res] at hres
      rcases hrem : hashRemove s.hashTable (some file) (getDesc s i).pageNo with _ | h1
      · have hstep : flushFileGo wOk file (fuel + 1) i s evs =
            ⟨(if (getDesc s i).dirty
               then setDesc s i { getDesc s i with dirty := false } else s),
             .err .hashNotFound,
             (if (getDesc s i).dirty
               then evs ++ [IOEv.writeEv file (getPage s i).page_number] else evs)⟩ := by
          simp only [flushFileGo]
          rw [if_pos hi, if_pos hf, if_neg hp, if_neg hv, if_neg hw, hrem]
        rw [hstep] at hout
        subst hout
        simp [Out.res] at hres
      · have hstep : flushFileGo wOk file (fuel + 1) i s evs =
            flushFileGo wOk file fuel (i + 1)
              (setDesc { s with hashTable := h1 } i ((getDesc s i).Clear))
              (if (getDesc s i).dirty
                then evs ++ [IOEv.writeEv file (getPage s i).page_number] else evs) := by
          simp only [flushFileGo]
          rw [if_pos hi, if_pos hf, if_neg hp, if_neg hv, if_neg hw, hrem]
        rw [hstep] at hout
        have hlen_i : i < s.bufDescTable.length := lt_length_of_file_some s i file hf
        have hg2i : getDesc (setDesc { s with hashTable := h1 } i ((getDesc s i).Clear)) i =
            (getDesc s i).Clear := by
          rw [getDesc_setDesc]
          exact if_pos ⟨rfl, hlen_i⟩
        have hg2 : ∀ j, j ≠ i →
            getDesc (setDesc { s with hashTable := h1 } i ((getDesc s i).Clear)) j =
              getDesc s j := by
          intro j hj
          rw [getDesc_setDesc]
          rw [if_neg (fun hc => hj hc.1.symm)]
          rfl
        have hnb : (setDesc { s with hashTable := h1 } i ((getDesc s i).Clear)).numBufs =
            s.numBufs := rfl
        have he1 : h1 = hashErase s.hashTable (some file) (getDesc s i).pageNo :=
          hashRemove_some_eq _ _ _ _ hrem
        obtain ⟨e1, e2, e3, e4, e5⟩ := ih (i + 1)
          (setDesc { s with hashTable := h1 } i ((getDesc s i).Clear))
          (if (getDesc s i).dirty
            then evs ++ [IOEv.writeEv file (getPage s i).page_number] else evs)
          out hout (by rw [hnb]; omega) hres
        have hfw : flushWrites (setDesc { s with hashTable := h1 } i ((getDesc s i).Clear))
            file (i + 1) fuel = flushWrites s file (i + 1) fuel :=
          flushWrites_congr _ _ file fuel (i + 1)
            (fun j hj => ⟨hg2 j (by omega), rfl⟩)
        refine ⟨?_, e2.trans hnb, ?_, ?_, ?_⟩
        · rw [e1, hfw]
          simp only [flushWrites]
          by_cases hd : (getDesc s i).dirty = true
          · rw [if_pos hd, if_pos (show (getDesc s i).file = some file ∧
                (getDesc s i).dirty = true from ⟨hf, hd⟩)]
            simp
          · rw [if_neg hd, if_neg (fun hc => hd hc.2)]
            simp
        · intro j hj
          exact (e3 j (by omega)).trans (hg2 j (by omega))
        · intro j hj
          rcases Nat.lt_or_ge j (i + 1) with h | h
          · have hji : j = i := by omega
            rw [hji, if_pos ⟨hf, hi⟩]
            exact (e3 i (by omega)).trans hg2i
          · have e4j := e4 j h
            rw [hg2 j (by omega), hnb] at e4j
            exact e4j
        · intro j hj hjn hjf
          rcases Nat.lt_or_ge j (i + 1) with h | h
          · have hji : j = i := by omega
            rw [hji]
            rcases flushFileGo_hash_mono wOk file fuel (i + 1)
                (setDesc { s with hashTable := h1 } i ((getDesc s i).Clear))
                (if (getDesc s i).dirty
                  then evs ++ [IOEv.writeEv file (getPage s i).page_number] else evs)
                (some file) ((getDesc s i).pageNo) with hm | hm
            · rw [hout] at hm
              exact hm
            · rw [hout] at hm
              rw [hm]
              show hashLookup h1 (some file) (getDesc s i).pageNo = none
              rw [he1]
              exact hashLookup_erase_self _ _ _
          · have e5j := e5 j h
            rw [hg2 j (by omega)] at e5j
            exact e5j hjn hjf
    · have hstep : flushFileGo wOk file (fuel + 1) i s evs =
          flushFileGo wOk file fuel (i + 1) s evs := by
        simp only [flushFileGo]
        rw [if_pos hi, if_neg hf]
      rw [hstep] at hout
      obtain ⟨e1, e2, e3, e4, e5⟩ := ih (i + 1) s evs out hout (by omega) hres
      refine ⟨?_, e2, ?_, ?_, ?_⟩
      · rw [e1]
        simp only [flushWrites]
        rw [if_neg (fun hc => hf hc.1)]
        simp
      · intro j hj
        exact e3 j (by omega)
      · intro j hj
        rcases Nat.lt_or_ge j (i + 1) with h | h
        · have hji : j = i := by omega
          rw [hji, if_neg (fun hc => hf hc.1)]
          exact e3 i (by omega)
        · exact e4 j h
      · intro j hj hjn hjf
        rcases Nat.lt_or_ge j (i + 1) with h | h
        · have hji : j = i := by omega
          rw [hji] at hjf
          exact absurd hjf hf
        · exact e5 j h hjn hjf

theorem setDesc_setDesc (s : BufMgr) (i : Nat) (a b : BufDesc) :
    setDesc (setDesc s i a) i b = setDesc s i b := by
  simp [setDesc, List.set_set]

/-! ### Claims -/

/-- Claim C1 (code bug): in `allocPage`, the source's last line is
`bufDescTable->Set(file, pageNo)`, which is `Set` on frame 0, not on the
frame returned by `allocBuf`.  At the concrete input `mgrA` (where `allocBuf`
returns frame 1), the call succeeds returning frame 1, yet frame 1 is left
invalid while frame 0's descriptor is the one that gets `Set` — and the hash
index maps the new page to the invalid frame 1. -/
theorem allocPage_sets_frame_zero_not_allocated_frame :
    (allocPage wT mgrA 9 3).2.res = .ok (3, 1) ∧
    (getDesc (allocPage wT mgrA 9 3).2.st 1).valid = false ∧
    getDesc (allocPage wT mgrA 9 3).2.st 0 = (getDesc mgrA 0).Set 9 3 ∧
    hashLookup (allocPage wT mgrA 9 3).2.st.hashTable (some 9) 3 = some 1 := by
  decide

/-- Claim C2 (code bug): the source's `allocBuf` never tests `valid`.  On a
fresh pool the clock hand rests on an invalid frame (no pin, no refbit), so
the code takes the victim branch and calls `hashTable->remove` for a frame
that has no hash entry: HashNotFound propagates and the call fails, instead
of returning the free frame's index with no hash removal. -/
theorem allocBuf_invalid_frame_raises_hashNotFound :
    (getDesc (initMgr 2) (initMgr 2).clockHand).valid = false ∧
    allocBuf wT (initMgr 2) = ⟨initMgr 2, .err .hashNotFound, []⟩ := by
  decide

/-- Claim C3 counterexample: `disposePage` on a key absent from the hash index
returns silently with an empty I/O trace — in particular `file->deletePage`
is never called, contradicting the claim that the absent case requests the
file to delete the page. -/
theorem disposePage_absent_no_delete_cex :
    hashLookup (initMgr 1).hashTable (some 1) 1 = none ∧
    disposePage (initMgr 1) 1 1 = ⟨initMgr 1, .ok (), []⟩ := by
  decide

/-- Claim C3 (amended): if (file, pageNo) is absent from the hash index,
`disposePage` returns silently with no state change and no `deletePage`
call; if it is present and the mapped frame is valid, the hash entry is
removed, the frame is Cleared, `file->deletePage(pageNo)` is called, and no
writeback occurs regardless of the dirty bit (the trace is exactly one
delete event). -/
theorem disposePage_spec_amended (s : BufMgr) (f p : Nat) :
    (hashLookup s.hashTable (some f) p = none →
      disposePage s f p = ⟨s, .ok (), []⟩) ∧
    (∀ fid, hashLookup s.hashTable (some f) p = some fid →
      (getDesc s fid).valid = true →
      disposePage s f p =
        ⟨setDesc { s with hashTable := hashErase s.hashTable (some f) p } fid
           ((getDesc s fid).Clear),
         .ok (), [IOEv.deleteEv f p]⟩) := by
  constructor
  · intro hl
    unfold disposePage
    rw [hl]
  · intro fid hl hv
    simp only [disposePage, hl]
    rw [if_pos hv]
    rw [hashRemove_of_lookup s.hashTable (some f) p fid hl]

theorem disposePage_spec_amended_witness :
    disposePage (initMgr 2) 3 4 = ⟨initMgr 2, .ok (), []⟩ ∧
    disposePage mgrH 1 1 =
      ⟨setDesc { mgrH with hashTable := hashErase mgrH.hashTable (some 1) 1 } 0
         ((getDesc mgrH 0).Clear),
       .ok (), [IOEv.deleteEv 1 1]⟩ :=
  ⟨(disposePage_spec_amended (initMgr 2) 3 4).1 (by decide),
   (disposePage_spec_amended mgrH 1 1).2 0 (by decide) (by decide)⟩

/-- Claim C4 counterexample: at `mgrB` (frame 0 pinned, frame 1 unpinned but
with its reference bit set, hand on frame 0) `allocBuf` raises PoolExhausted
even though frame 1 has `pinCnt = 0`: the sweep counts the pinned frame 0
twice — once before and once after frame 1's second-chance pass — so the
pinned counter reaches `numBufs` without every frame being pinned. -/
theorem allocBuf_poolExhausted_with_unpinned_cex :
    (allocBuf wT mgrB).res = .err .bufferExceeded ∧
    (getDesc mgrB 1).pinCnt = 0 ∧
    1 < mgrB.numBufs ∧ mgrB.clockHand < mgrB.numBufs := by
  decide

/-- Claim C4 (amended): `allocBuf` raises PoolExhausted once its sweep has
visited pinned frames `numBufs` times before finding a victim; because a
pinned frame can be visited more than once in one call, this can happen
while some frame still has `pinCnt = 0` (see the counterexample).  In the
guaranteed direction: whenever every frame of the pool is pinned (and the
hand is in range), `allocBuf` does raise PoolExhausted. -/
theorem allocBuf_allPinned_poolExhausted (wOk : Nat → Nat → Bool) (s : BufMgr)
    (hp : ∀ i, i < s.numBufs → 0 < (getDesc s i).pinCnt)
    (hch : s.clockHand < s.numBufs) :
    (allocBuf wOk s).res = .err .bufferExceeded :=
  allocBufGo_allPinned wOk (2 * s.numBufs + 2) s 0 [] hp hch (by omega) (by omega)

theorem allocBuf_allPinned_poolExhausted_witness :
    (allocBuf wT mgrF).res = .err .bufferExceeded :=
  allocBuf_allPinned_poolExhausted wT mgrF (by decide) (by decide)

/-- Claim C5 counterexample: at `mgrC`, frame 0 is pinned with
`refbit = true`; `allocBuf` succeeds (evicting frame 1) but clears the
pinned frame's reference bit on the way — the source's loop runs
`bufferDesc.refbit = false` on every frame it passes over, pinned frames
included, contradicting the claim that a pinned frame's refbit is left
unchanged. -/
theorem allocBuf_clears_refbit_of_pinned_cex :
    0 < (getDesc mgrC 0).pinCnt ∧
    (getDesc mgrC 0).refbit = true ∧
    (allocBuf wT mgrC).res = .ok 1 ∧
    (getDesc (allocBuf wT mgrC).st 0).refbit = false := by
  decide

/-- Claim C5 (amended): a visit of the sweep to a pinned frame (that does not
exhaust the pool) increments the pinned counter, clears that frame's
reference bit, advances the hand, and leaves the frame's other fields and
all other frames unchanged — i.e. the sweep clears `refbit` on every frame
it passes over, pinned frames included, not only on valid unpinned frames
with `refbit = true`. -/
theorem allocBuf_pinned_visit_step (wOk : Nat → Nat → Bool) (fuel pc : Nat)
    (s : BufMgr) (evs : List IOEv)
    (hpin : 0 < (getDesc s s.clockHand).pinCnt)
    (hfull : pc + 1 ≠ s.numBufs) :
    allocBufGo wOk (fuel + 1) s pc evs =
      allocBufGo wOk fuel (sweepStep s) (pc + 1) evs ∧
    getDesc (sweepStep s) s.clockHand =
      { getDesc s s.clockHand with refbit := false } ∧
    (∀ i, i ≠ s.clockHand → getDesc (sweepStep s) i = getDesc s i) ∧
    (sweepStep s).clockHand = (s.clockHand + 1) % s.numBufs := by
  refine ⟨?_, ?_, ?_, rfl⟩
  · simp only [allocBufGo]
    rw [if_pos hpin, if_neg hfull]
  · show getDesc (setDesc s s.clockHand
        { getDesc s s.clockHand with refbit := false }) s.clockHand = _
    rw [getDesc_setDesc]
    exact if_pos ⟨rfl, lt_length_of_pin_pos s s.clockHand hpin⟩
  · intro i hi
    show getDesc (setDesc s s.clockHand
        { getDesc s s.clockHand with refbit := false }) i = getDesc s i
    rw [getDesc_setDesc]
    rw [if_neg (fun hc => hi hc.1.symm)]

theorem allocBuf_pinned_visit_step_witness :
    allocBufGo wT 6 mgrC 0 [] = allocBufGo wT 5 (sweepStep mgrC) 1 [] ∧
    getDesc (sweepStep mgrC) mgrC.clockHand =
      { getDesc mgrC mgrC.clockHand with refbit := false } := by
  have h := allocBuf_pinned_visit_step wT 5 0 mgrC [] (by decide) (by decide)
  exact ⟨h.1, h.2.1⟩

/-- Claim C6: `unPinPage` returns silently with no state change on a hash
miss; fails with NotPinned (and changes nothing) when the mapped frame has
`pinCnt = 0`; otherwise decrements `pinCnt` by exactly one and sets the dirty
flag when the `dirty` argument is true — the dirty flag is never cleared
(the new dirty bit is the old one or-ed with the argument). -/
theorem unPinPage_spec (s : BufMgr) (f p : Nat) (dirty : Bool) :
    (hashLookup s.hashTable (some f) p = none →
      unPinPage s f p dirty = ⟨s, .ok (), []⟩) ∧
    (∀ fid, hashLookup s.hashTable (some f) p = some fid →
      ((getDesc s fid).pinCnt = 0 →
        unPinPage s f p dirty = ⟨s, .err (.pageNotPinned f p fid), []⟩) ∧
      (0 < (getDesc s fid).pinCnt →
        unPinPage s f p dirty =
          ⟨setDesc s fid
            { getDesc s fid with
                pinCnt := (getDesc s fid).pinCnt - 1,
                dirty := ((getDesc s fid).dirty || dirty) },
           .ok (), []⟩)) := by
  constructor
  · intro hl
    unfold unPinPage
    rw [hl]
  · intro fid hl
    constructor
    · intro hz
      simp only [unPinPage, hl]
      rw [if_neg (by omega : ¬0 < (getDesc s fid).pinCnt)]
    · intro hpos
      have hfl : fid < s.bufDescTable.length := lt_length_of_pin_pos s fid hpos
      have hg1 : getDesc (setDesc s fid
          { getDesc s fid with pinCnt := (getDesc s fid).pinCnt - 1 }) fid =
          { getDesc s fid with pinCnt := (getDesc s fid).pinCnt - 1 } := by
        rw [getDesc_setDesc]
        exact if_pos ⟨rfl, hfl⟩
      simp only [unPinPage, hl]
      rw [if_pos hpos]
      cases dirty with
      | false =>
        rw [if_neg (by simp : ¬(false = true))]
        simp [Bool.or_false]
      | true =>
        rw [if_pos rfl]
        rw [hg1, setDesc_setDesc]
        simp [Bool.or_true]

theorem unPinPage_spec_witness :
    unPinPage mgrG 2 5 false = ⟨mgrG, .ok (), []⟩ ∧
    unPinPage mgrG 1 1 true =
      ⟨setDesc mgrG 0
        { getDesc mgrG 0 with
            pinCnt := (getDesc mgrG 0).pinCnt - 1,
            dirty := ((getDesc mgrG 0).dirty || true) },
       .ok (), []⟩ :=
  ⟨(unPinPage_spec mgrG 2 5 false).1 (by decide),
   ((unPinPage_spec mgrG 1 1 true).2 0 (by decide)).2 (by decide)⟩

/-- Claim C7: for every successful `flushFile(F)` call: `writePage` is
invoked for exactly the frames of F that are dirty at call time, in ascending
frame-index order (the trace equals `flushWrites`); every frame of F is
Cleared and its hash entry removed; afterwards no frame references F; and a
second `flushFile(F)` with no intervening access is a no-op performing no
writebacks. -/
theorem flushFile_spec (wOk : Nat → Nat → Bool) (s : BufMgr) (file : Nat)
    (hok : (flushFile wOk s file).res = .ok ()) :
    (flushFile wOk s file).evs = flushWrites s file 0 s.numBufs ∧
    (∀ j, j < s.numBufs → (getDesc (flushFile wOk s file).st j).file ≠ some file) ∧
    (∀ j, j < s.numBufs → (getDesc s j).file = some file →
      getDesc (flushFile wOk s file).st j = (getDesc s j).Clear ∧
      hashLookup (flushFile wOk s file).st.hashTable (some file)
        ((getDesc s j).pageNo) = none) ∧
    flushFile wOk (flushFile wOk s file).st file =
      ⟨(flushFile wOk s file).st, .ok (), []⟩ := by
  obtain ⟨e1, e2, e3, e4, e5⟩ := flushFileGo_ok_spec wOk file s.numBufs 0 s []
    (flushFile wOk s file) rfl (by omega) hok
  have hnone : ∀ j, j < s.numBufs →
      (getDesc (flushFile wOk s file).st j).file ≠ some file := by
    intro j hj
    have h4 := e4 j (Nat.zero_le j)
    by_cases hf : (getDesc s j).file = some file
    · rw [if_pos ⟨hf, hj⟩] at h4
      rw [h4]
      simp [BufDesc.Clear]
    · rw [if_neg (fun hc => hf hc.1)] at h4
      rw [h4]
      exact hf
  refine ⟨by simpa using e1, hnone, ?_, ?_⟩
  · intro j hj hf
    have h4 := e4 j (Nat.zero_le j)
    rw [if_pos ⟨hf, hj⟩] at h4
    exact ⟨h4, e5 j (Nat.zero_le j) hj hf⟩
  · apply flushFileGo_noop
    intro j hj
    have he2 : (flushFile wOk s file).st.numBufs = s.numBufs := e2
    rw [he2] at hj
    exact hnone j hj

theorem flushFile_spec_witness :
    (flushFile wT mgrD 1).evs = flushWrites mgrD 1 0 mgrD.numBufs :=
  (flushFile_spec wT mgrD 1 (by decide)).1

/-- Claim C8: after any sequence of public operations (readPage, unPinPage,
allocPage, disposePage, flushFile) on a freshly constructed manager, the
hash index and the frame table are in bijection: every valid frame's
(file, pageNo) maps to its own index and every hash entry points to a
matching valid frame.  (The invariant holds degenerately: because `allocBuf`
raises HashNotFound on every invalid frame, no operation sequence can ever
create a binding, so a fresh manager's state never changes.) -/
theorem public_ops_preserve_hash_frame_bijection (wOk : Nat → Nat → Bool)
    (fr : Nat → Nat → Page) (bufs : Nat) (fn : Nat → Nat) (ops : List Op) :
    hashFrameBijection (runOps wOk fr (initMgr bufs, fn) ops).1 := by
  rw [runOps_initMgr wOk fr bufs ops fn]
  constructor
  · intro i hi hvalid
    rw [getDesc_initMgr] at hvalid
    simp [BufDesc.mkInit] at hvalid
  · intro k p fid hlook
    simp [initMgr, hashLookup] at hlook

/-- Claim C9: when the `writePage` issued for a dirty victim inside
`allocBuf` fails, the error propagates (here: through a missing `readPage`)
and the victim frame — the frame under the hand in the returned state — is
left in its prior state: still dirty, unpinned, and agreeing with its
pre-call descriptor on everything but the (already clear) reference bit; the
hash table is untouched, so the victim's entry is still present, and no I/O
events were recorded. -/
theorem allocBuf_write_failure_preserves_victim
    (wOk : Nat → Nat → Bool) (fr : Nat → Nat → Page) (s : BufMgr)
    (f p wf wp : Nat) (s2 : BufMgr) (evs2 : List IOEv)
    (h1 : allocBuf wOk s = ⟨s2, .err (.ioError wf wp), evs2⟩)
    (h2 : hashLookup s.hashTable (some f) p = none) :
    evs2 = [] ∧
    s2.hashTable = s.hashTable ∧
    (getDesc s2 s2.clockHand).dirty = true ∧
    (getDesc s2 s2.clockHand).pinCnt = 0 ∧
    descAgrees (getDesc s s2.clockHand) (getDesc s2 s2.clockHand) ∧
    readPage wOk fr s f p = ⟨s2, .err (.ioError wf wp), evs2⟩ := by
  obtain ⟨hh, hn, ha, hb, hio⟩ := allocBufGo_err_spec wOk (2 * s.numBufs + 2) s 0 []
    ⟨s2, .err (.ioError wf wp), evs2⟩ (.ioError wf wp) h1 rfl
  obtain ⟨hevs, hdirty, hpin⟩ := hio wf wp rfl
  refine ⟨hevs, hh, hdirty, hpin, ha s2.clockHand, ?_⟩
  unfold readPage
  rw [h2, h1]

theorem allocBuf_write_failure_preserves_victim_witness :
    ([] : List IOEv) = [] ∧
    mgrE.hashTable = mgrE.hashTable ∧
    (getDesc mgrE mgrE.clockHand).dirty = true ∧
    (getDesc mgrE mgrE.clockHand).pinCnt = 0 ∧
    descAgrees (getDesc mgrE mgrE.clockHand) (getDesc mgrE mgrE.clockHand) ∧
    readPage wF frZ mgrE 3 1 = ⟨mgrE, .err (.ioError 2 5), []⟩ :=
  allocBuf_write_failure_preserves_victim wF frZ mgrE 3 1 2 5 mgrE []
    (by decide) (by decide)

/-- Claim C10: `allocPage` asks the file for a new page before calling
`allocBuf`; hence when `allocBuf` raises PoolExhausted, the on-disk
allocation has already happened (the file's next-page counter advanced and
the allocate event is in the trace) and is not rolled back, while no hash
entry and no valid frame binding for the new page exist. -/
theorem allocPage_poolExhausted_disk_allocated
    (wOk : Nat → Nat → Bool) (s : BufMgr) (file fileNext : Nat)
    (s2 : BufMgr) (fn2 : Nat) (evs2 : List IOEv)
    (hrun : allocPage wOk s file fileNext = (fn2, ⟨s2, .err .bufferExceeded, evs2⟩))
    (habs : hashLookup s.hashTable (some file) fileNext = none)
    (hnof : ∀ i, i < s.numBufs →
      ¬((getDesc s i).valid = true ∧ (getDesc s i).file = some file ∧
        (getDesc s i).pageNo = fileNext)) :
    fn2 = fileNext + 1 ∧
    evs2 = [IOEv.allocEv file] ∧
    hashLookup s2.hashTable (some file) fileNext = none ∧
    (∀ i, i < s2.numBufs →
      ¬((getDesc s2 i).valid = true ∧ (getDesc s2 i).file = some file ∧
        (getDesc s2 i).pageNo = fileNext)) := by
  rcases hab : allocBuf wOk s with ⟨s1, r1, evs1⟩
  cases r1 with
  | ok a =>
    have hstep : (allocPage wOk s file fileNext).2.res = .ok (fileNext, a) := by
      unfold allocPage
      rw [hab]
    rw [hrun] at hstep
    simp [Out.res] at hstep
  | fuelOut =>
    have hstep : (allocPage wOk s file fileNext).2.res = .fuelOut := by
      unfold allocPage
      rw [hab]
    rw [hrun] at hstep
    simp [Out.res] at hstep
  | err e =>
    have hstep : allocPage wOk s file fileNext =
        (fileNext + 1, ⟨s1, .err e, IOEv.allocEv file :: evs1⟩) := by
      unfold allocPage
      rw [hab]
    rw [hstep] at hrun
    simp only [Prod.mk.injEq, Out.mk.injEq, OpRes.err.injEq] at hrun
    obtain ⟨hfn, hs, he, hevs⟩ := hrun
    subst he
    subst hs
    obtain ⟨hh, hn, ha, hb, _⟩ := allocBufGo_err_spec wOk (2 * s.numBufs + 2) s 0 []
      ⟨s1, .err .bufferExceeded, evs1⟩ .bufferExceeded hab rfl
    have hevs1 : evs1 = [] := hb rfl
    have hh1 : s1.hashTable = s.hashTable := hh
    have hn1 : s1.numBufs = s.numBufs := hn
    refine ⟨hfn.symm, ?_, ?_, ?_⟩
    · rw [← hevs, hevs1]
    · rw [hh1]
      exact habs
    · intro i hi hcon
      obtain ⟨hcv, hcf, hcp⟩ := hcon
      obtain ⟨_, haf, hap, hav, _, _⟩ := ha i
      rw [hn1] at hi
      exact hnof i hi ⟨hav.symm.trans hcv, haf.symm.trans hcf, hap.symm.trans hcp⟩

theorem allocPage_poolExhausted_disk_allocated_witness :
    (10 : Nat) = 9 + 1 ∧
    [IOEv.allocEv 4] = [IOEv.allocEv 4] ∧
    hashLookup mgrF.hashTable (some 4) 9 = none ∧
    (∀ i, i < mgrF.numBufs →
      ¬((getDesc mgrF i).valid = true ∧ (getDesc mgrF i).file = some 4 ∧
        (getDesc mgrF i).pageNo = 9)) :=
  allocPage_poolExhausted_disk_allocated wT mgrF 4 9 mgrF 10 [IOEv.allocEv 4]
    (by decide) (by decide) (by decide)

end Badger
